import Mathlib

/-!
Shallow embedding of `haystack/components/embedders/azure_document_embedder.py`
(`AzureOpenAIDocumentEmbedder`): construction-time validation, configuration
(de)serialization, text preparation, batched embedding with skip-on-error, and
positional re-attachment of vectors to documents.

Embeddings themselves (vectors of floats) are opaque to this component: it only
transports them.  They are modelled by a type parameter `α`.  The remote client
is modelled as a function from the call number (the component performs exactly
one remote call per batch, in order) to the outcome of that call: either an API
error or a response.
-/

namespace Haystack

instance {ε β : Type} [DecidableEq ε] [DecidableEq β] : DecidableEq (Except ε β) := fun x y =>
  match x, y with
  | .error a, .error b =>
    if h : a = b then .isTrue (h ▸ rfl) else .isFalse (fun hc => h (by cases hc; rfl))
  | .ok a, .ok b =>
    if h : a = b then .isTrue (h ▸ rfl) else .isFalse (fun hc => h (by cases hc; rfl))
  | .error _, .ok _ => .isFalse (fun hc => by cases hc)
  | .ok _, .error _ => .isFalse (fun hc => by cases hc)

/-- A Haystack `Document`: identifier, optional textual content, a metadata
mapping (string keys to optional values; `none` models Python `None`, `some s`
models a value whose `str()` form is `s`), and the mutable `embedding` field
(`none` = unset). -/
structure Document (α : Type) where
  id : String
  content : Option String
  meta : List (String × Option String)
  embedding : Option α
deriving DecidableEq, Repr

/-- Modelled from the spec: `haystack.utils.Secret.from_env_var` (not under
`src/`) — a credential held as a resolvable reference naming environment
variables; the plaintext value is never stored in this representation. -/
structure Secret where
  env_vars : List String
  strict : Bool
deriving DecidableEq, Repr

/-- Token-usage counters of one remote embedding response. -/
structure Usage where
  prompt_tokens : Nat
  total_tokens : Nat
deriving DecidableEq, Repr

/-- A successful remote embedding response: one embedding per input text
(order-preserving, by the remote contract), resolved model name, usage. -/
structure EmbResponse (α : Type) where
  data : List α
  model : String
  usage : Usage
deriving DecidableEq, Repr

/-- The `meta` record accumulated by `_embed_batch`. -/
structure EmbMeta where
  model : String
  usage : Usage
deriving DecidableEq, Repr

/-- The payload of one `embeddings.create` call: `{"model": ..., "input":
[...]}` plus `dimensions` when configured. -/
structure EmbedRequest where
  model : String
  input : List String
  dimensions : Option Nat
deriving DecidableEq, Repr

/-- The environment of one execution: outcome of the `i`-th remote call
(`.error e` models `openai.APIError`). -/
abbrev ApiClient (α : Type) := Nat → Except String (EmbResponse α)

/-- The resolved configuration stored on a constructed
`AzureOpenAIDocumentEmbedder` (its `self.*` attributes).  `pfx`/`sfx` embed the
Python `prefix`/`suffix` attributes; `azure_ad_token_provider` is the name of
the registered callable (see `to_dict`). -/
structure Config where
  azure_endpoint : String
  api_version : Option String
  azure_deployment : String
  dimensions : Option Nat
  api_key : Option Secret
  azure_ad_token : Option Secret
  organization : Option String
  pfx : String
  sfx : String
  batch_size : Nat
  progress_bar : Bool
  meta_fields_to_embed : List String
  embedding_separator : String
  timeout : Rat
  max_retries : Nat
  default_headers : List (String × String)
  azure_ad_token_provider : Option String
  http_client_kwargs : Option (List (String × String))
deriving DecidableEq, Repr

/-- The keyword arguments of `AzureOpenAIDocumentEmbedder.__init__`.  `none`
models passing Python `None` (for `api_key`/`azure_ad_token` this models
explicitly overriding the `Secret.from_env_var(..., strict=False)` default). -/
structure InitParams where
  azure_endpoint : Option String
  api_version : Option String
  azure_deployment : String
  dimensions : Option Nat
  api_key : Option Secret
  azure_ad_token : Option Secret
  organization : Option String
  pfx : String
  sfx : String
  batch_size : Nat
  progress_bar : Bool
  meta_fields_to_embed : Option (List String)
  embedding_separator : String
  timeout : Option Rat
  max_retries : Option Nat
  default_headers : Option (List (String × String))
  azure_ad_token_provider : Option String
  http_client_kwargs : Option (List (String × String))
deriving DecidableEq, Repr

/-- The environment variables read by `__init__`: `AZURE_OPENAI_ENDPOINT`,
`OPENAI_TIMEOUT`, `OPENAI_MAX_RETRIES`. -/
structure Env where
  azure_openai_endpoint : Option String
  openai_timeout : Option Rat
  openai_max_retries : Option Nat
deriving DecidableEq, Repr

/-- A `ValueError` raised by `__init__`. -/
inductive InitError where
  | valueError (msg : String)
deriving DecidableEq, Repr

/-- Observable side effects of `__init__`; `createClient` is the construction
of the `AzureOpenAI` network client. -/
inductive InitEvent where
  | createClient
deriving DecidableEq, Repr

/-- Python truthiness of an optional string (`None` and `""` are falsy). -/
def strTruthy : Option String → Bool
  | none => false
  | some s => if s = "" then false else true

/-- Python `a or b` on optional strings. -/
def pyOrStr (a b : Option String) : Option String :=
  if strTruthy a then a else b

/-- The `self.*` attributes assigned by `__init__` once validation passed
(`endp` is the resolved endpoint). -/
def configOf (p : InitParams) (env : Env) (endp : String) : Config where
  azure_endpoint := endp
  api_version := p.api_version
  azure_deployment := p.azure_deployment
  dimensions := p.dimensions
  api_key := p.api_key
  azure_ad_token := p.azure_ad_token
  organization := p.organization
  pfx := p.pfx
  sfx := p.sfx
  batch_size := p.batch_size
  progress_bar := p.progress_bar
  meta_fields_to_embed := p.meta_fields_to_embed.getD []
  embedding_separator := p.embedding_separator
  timeout := p.timeout.getD (env.openai_timeout.getD 30)
  max_retries := p.max_retries.getD (env.openai_max_retries.getD 5)
  default_headers := p.default_headers.getD []
  azure_ad_token_provider := p.azure_ad_token_provider
  http_client_kwargs := p.http_client_kwargs

/-- `AzureOpenAIDocumentEmbedder.__init__`: resolve the endpoint (explicit
parameter `or` the `AZURE_OPENAI_ENDPOINT` environment variable), fail if it
is missing, fail if both `api_key` and `azure_ad_token` are `None`, otherwise
store the configuration and create the network client. -/
def init (p : InitParams) (env : Env) : List InitEvent × Except InitError Config :=
  let endp := pyOrStr p.azure_endpoint env.azure_openai_endpoint
  if strTruthy endp = false then
    ([], .error (.valueError
      "Please provide an Azure endpoint or set the environment variable AZURE_OPENAI_ENDPOINT."))
  else if p.api_key.isNone && p.azure_ad_token.isNone then
    ([], .error (.valueError "Please provide an API key or an Azure Active Directory token."))
  else
    ([.createClient], .ok (configOf p env (endp.getD "")))

/-- Modelled from the spec: the serialized form of a `Secret`
(`Secret.to_dict`, not under `src/`) — a resolvable reference holding the
environment-variable names, never the secret value itself. -/
structure SecretRef where
  env_vars : List String
  strict : Bool
deriving DecidableEq, Repr

/-- Modelled from the spec: `Secret.to_dict` (not under `src/`). -/
def Secret.to_dict (s : Secret) : SecretRef :=
  ⟨s.env_vars, s.strict⟩

/-- Modelled from the spec: `deserialize_secrets_inplace` (not under `src/`)
restores a `Secret` from its serialized reference. -/
def secretOfRef (r : SecretRef) : Secret :=
  ⟨r.env_vars, r.strict⟩

/-- The flat record produced by `AzureOpenAIDocumentEmbedder.to_dict`
(its `init_parameters`).  The token-provider callable appears as its
serialized name (`serialize_callable`), secrets as `SecretRef`s. -/
structure ComponentDict where
  azure_endpoint : String
  azure_deployment : String
  dimensions : Option Nat
  organization : Option String
  api_version : Option String
  pfx : String
  sfx : String
  batch_size : Nat
  progress_bar : Bool
  meta_fields_to_embed : List String
  embedding_separator : String
  api_key : Option SecretRef
  azure_ad_token : Option SecretRef
  timeout : Rat
  max_retries : Nat
  default_headers : List (String × String)
  azure_ad_token_provider : Option String
  http_client_kwargs : Option (List (String × String))
deriving DecidableEq, Repr

/-- `AzureOpenAIDocumentEmbedder.to_dict`: serialize every configuration
field; secrets via `Secret.to_dict`, the token provider via
`serialize_callable` (modelled from the spec as its registered name). -/
def to_dict (cfg : Config) : ComponentDict where
  azure_endpoint := cfg.azure_endpoint
  azure_deployment := cfg.azure_deployment
  dimensions := cfg.dimensions
  organization := cfg.organization
  api_version := cfg.api_version
  pfx := cfg.pfx
  sfx := cfg.sfx
  batch_size := cfg.batch_size
  progress_bar := cfg.progress_bar
  meta_fields_to_embed := cfg.meta_fields_to_embed
  embedding_separator := cfg.embedding_separator
  api_key := cfg.api_key.map Secret.to_dict
  azure_ad_token := cfg.azure_ad_token.map Secret.to_dict
  timeout := cfg.timeout
  max_retries := cfg.max_retries
  default_headers := cfg.default_headers
  azure_ad_token_provider := cfg.azure_ad_token_provider
  http_client_kwargs := cfg.http_client_kwargs

/-- The `init_parameters` handed to `__init__` by `default_from_dict` after
`deserialize_secrets_inplace` and `deserialize_callable` (modelled from the
spec: name-based, re-resolvable references). -/
def paramsOfDict (d : ComponentDict) : InitParams where
  azure_endpoint := some d.azure_endpoint
  api_version := d.api_version
  azure_deployment := d.azure_deployment
  dimensions := d.dimensions
  api_key := d.api_key.map secretOfRef
  azure_ad_token := d.azure_ad_token.map secretOfRef
  organization := d.organization
  pfx := d.pfx
  sfx := d.sfx
  batch_size := d.batch_size
  progress_bar := d.progress_bar
  meta_fields_to_embed := some d.meta_fields_to_embed
  embedding_separator := d.embedding_separator
  timeout := some d.timeout
  max_retries := some d.max_retries
  default_headers := some d.default_headers
  azure_ad_token_provider := d.azure_ad_token_provider
  http_client_kwargs := d.http_client_kwargs

/-- `AzureOpenAIDocumentEmbedder.from_dict`: deserialize the secrets and the
token-provider reference, then run `__init__` on the stored parameters. -/
def from_dict (d : ComponentDict) (env : Env) : List InitEvent × Except InitError Config :=
  init (paramsOfDict d) env

/-- The metadata values selected for embedding: `[str(doc.meta[key]) for key
in self.meta_fields_to_embed if key in doc.meta and doc.meta[key] is not
None]`. -/
def metaValuesToEmbed (fields : List String) (doc : Document α) : List String :=
  fields.filterMap fun key =>
    match doc.meta.find? (fun p => p.1 == key) with
    | some (_, some v) => some v
    | _ => none

/-- Python `str.replace("\n", " ")`. -/
def replaceNewlines (s : String) : String :=
  ⟨s.data.map fun c => if c = '\n' then ' ' else c⟩

/-- Python `sep.join(parts)`. -/
def pyJoin (sep : String) : List String → String
  | [] => ""
  | [s] => s
  | s :: rest => s ++ sep ++ pyJoin sep rest

/-- The embedding text built for one document:
`(prefix + sep.join(meta_values + [content or ""]) + suffix).replace("\n", " ")`. -/
def textToEmbed (cfg : Config) (doc : Document α) : String :=
  replaceNewlines
    (cfg.pfx ++ pyJoin cfg.embedding_separator
        (metaValuesToEmbed cfg.meta_fields_to_embed doc ++ [doc.content.getD ""])
      ++ cfg.sfx)

/-- Python dict assignment `d[k] = v` on an insertion-ordered dictionary: an
existing key keeps its position and gets the new value, a new key is appended. -/
def dictInsert (d : List (String × β)) (k : String) (v : β) : List (String × β) :=
  if d.any (fun p => p.1 == k) then
    d.map fun p => if p.1 == k then (p.1, v) else p
  else
    d ++ [(k, v)]

/-- `AzureOpenAIDocumentEmbedder._prepare_texts_to_embed`: builds the
insertion-ordered mapping `texts_to_embed[doc.id] = text_to_embed`. -/
def prepare_texts_to_embed (cfg : Config) (documents : List (Document α)) :
    List (String × String) :=
  documents.foldl (fun acc doc => dictInsert acc doc.id (textToEmbed cfg doc)) []

/-- Fuel-driven worker for `batched`; the fuel only makes the recursion
structural and is irrelevant as long as it bounds the list length
(`batchedF_congr`). -/
def batchedF (n : Nat) : Nat → List β → List (List β)
  | _, [] => []
  | 0, _ :: _ => []
  | fuel + 1, x :: xs => (x :: xs.take (n - 1)) :: batchedF n fuel (xs.drop (n - 1))

/-- `more_itertools.batched`: consecutive chunks of at most `n` elements. -/
def batched (n : Nat) (l : List β) : List (List β) :=
  batchedF n l.length l

/-- The log line emitted when a batch fails:
`f"Failed embedding of documents {ids} caused by {e}"` with
`ids = ", ".join(b[0] for b in batch)`. -/
def logMsg (batch : List (String × String)) (e : String) : String :=
  "Failed embedding of documents " ++ pyJoin ", " (batch.map Prod.fst) ++ " caused by " ++ e

/-- The request payload built for one batch: `{"model": self.azure_deployment,
"input": [b[1] for b in batch]}` plus `dimensions` when set. -/
def reqOf (cfg : Config) (batch : List (String × String)) : EmbedRequest :=
  ⟨cfg.azure_deployment, batch.map Prod.snd, cfg.dimensions⟩

/-- The accumulating state of `_embed_batch`, together with the observable
trace (log lines, requests issued). -/
structure EmbState (α : Type) where
  all_embeddings : List α
  meta : EmbMeta
  logs : List String
  requests : List EmbedRequest
deriving DecidableEq, Repr

/-- One iteration of the `_embed_batch` loop on one batch, given the outcome
of its remote call: on `APIError` log and skip, on success extend the result
vectors and update the usage metadata (initializing it on the first response
while `meta["model"]` is still empty). -/
def processBatch (cfg : Config) (outcome : Except String (EmbResponse α))
    (batch : List (String × String)) (st : EmbState α) : EmbState α :=
  let st1 := { st with requests := st.requests ++ [reqOf cfg batch] }
  match outcome with
  | .error e => { st1 with logs := st1.logs ++ [logMsg batch e] }
  | .ok r =>
    let st2 := { st1 with all_embeddings := st1.all_embeddings ++ r.data }
    if st2.meta.model = "" then
      { st2 with meta := ⟨r.model, r.usage⟩ }
    else
      { st2 with meta := ⟨st2.meta.model,
          ⟨st2.meta.usage.prompt_tokens + r.usage.prompt_tokens,
            st2.meta.usage.total_tokens + r.usage.total_tokens⟩⟩ }

/-- The `_embed_batch` loop over the remaining batches; `i` is the number of
remote calls already made. -/
def embedBatchGo (cfg : Config) (client : ApiClient α) :
    Nat → List (List (String × String)) → EmbState α → EmbState α
  | _, [], st => st
  | i, b :: bs, st => embedBatchGo cfg client (i + 1) bs (processBatch cfg (client i) b st)

/-- `AzureOpenAIDocumentEmbedder._embed_batch`. -/
def embed_batch (cfg : Config) (client : ApiClient α)
    (texts_to_embed : List (String × String)) (batch_size : Nat) : EmbState α :=
  embedBatchGo cfg client 0 (batched batch_size texts_to_embed) ⟨[], ⟨"", ⟨0, 0⟩⟩, [], []⟩

/-- A Python object that may appear in the `documents` argument of `run`. -/
inductive PyObj (α : Type) where
  | doc (d : Document α)
  | str (s : String)
  | other
deriving DecidableEq, Repr

/-- The `documents` argument of `run` as received dynamically: a Python list
of objects, or something that is not a list at all. -/
inductive PyInput (α : Type) where
  | list (items : List (PyObj α))
  | nonList
deriving DecidableEq, Repr

/-- The `TypeError` raised by `run`. -/
inductive RunError where
  | typeError (msg : String)
deriving DecidableEq, Repr

/-- The value returned by `run` (`documents` and `meta`), together with the
observable trace of the execution (log lines, requests issued). -/
structure RunOutput (α : Type) where
  documents : List (Document α)
  meta : EmbMeta
  logs : List String
  requests : List EmbedRequest
deriving DecidableEq, Repr

/-- `for doc, emb in zip(documents, embeddings): doc.embedding = emb` —
positional assignment stopping at the shorter list; trailing documents are
returned unchanged. -/
def assignEmbeddings : List (Document α) → List α → List (Document α)
  | [], _ => []
  | d :: ds, [] => d :: ds
  | d :: ds, e :: es => { d with embedding := some e } :: assignEmbeddings ds es

/-- `isinstance(obj, Document)`. -/
def isDocObj : PyObj α → Bool
  | .doc _ => true
  | _ => false

def docOf : PyObj α → Option (Document α)
  | .doc d => some d
  | _ => none

/-- The body of `run` after the type check passed. -/
def runOnDocs (cfg : Config) (client : ApiClient α) (documents : List (Document α)) :
    RunOutput α :=
  let texts_to_embed := prepare_texts_to_embed cfg documents
  let st := embed_batch cfg client texts_to_embed cfg.batch_size
  { documents := assignEmbeddings documents st.all_embeddings
    meta := st.meta
    logs := st.logs
    requests := st.requests }

/-- `AzureOpenAIDocumentEmbedder.run`: raise `TypeError` unless the input is a
list whose elements are all `Document`s, then prepare texts, embed in batches,
and attach the vectors positionally. -/
def run (cfg : Config) (client : ApiClient α) (input : PyInput α) :
    Except RunError (RunOutput α) :=
  match input with
  | .list items =>
    if items.all isDocObj then
      .ok (runOnDocs cfg client (items.filterMap docOf))
    else
      .error (.typeError
        "Input must be a list of Document instances. For strings, use AzureOpenAITextEmbedder.")
  | .nonList =>
    .error (.typeError
      "Input must be a list of Document instances. For strings, use AzureOpenAITextEmbedder.")

/-! ## Characterization of the `_embed_batch` loop

`outs client i bs` pairs each batch with the outcome of its remote call;
the loop's final state is computed componentwise by pure folds over that
trace. -/

/-- Each remaining batch paired with the outcome of its remote call. -/
def outs (client : ApiClient α) :
    Nat → List (List (String × String)) →
    List (List (String × String) × Except String (EmbResponse α))
  | _, [] => []
  | i, b :: bs => (b, client i) :: outs client (i + 1) bs

/-- Concatenation of the vectors of the successful calls, in order. -/
def okData : List (List (String × String) × Except String (EmbResponse α)) → List α
  | [] => []
  | (_, .ok r) :: rest => r.data ++ okData rest
  | (_, .error _) :: rest => okData rest

/-- The log lines of the failed calls, in order. -/
def errLogs : List (List (String × String) × Except String (EmbResponse α)) → List String
  | [] => []
  | (_, .ok _) :: rest => errLogs rest
  | (b, .error e) :: rest => logMsg b e :: errLogs rest

/-- The `meta` update of one successful response. -/
def metaStep (m : EmbMeta) (r : EmbResponse α) : EmbMeta :=
  if m.model = "" then ⟨r.model, r.usage⟩
  else ⟨m.model,
    ⟨m.usage.prompt_tokens + r.usage.prompt_tokens,
      m.usage.total_tokens + r.usage.total_tokens⟩⟩

/-- The `meta` record accumulated over a trace. -/
def metaFold : EmbMeta → List (List (String × String) × Except String (EmbResponse α)) → EmbMeta
  | m, [] => m
  | m, (_, .error _) :: rest => metaFold m rest
  | m, (_, .ok r) :: rest => metaFold (metaStep m r) rest

/-- Sum of the `prompt_tokens` counts of the successful calls of a trace. -/
def promptSum : List (List (String × String) × Except String (EmbResponse α)) → Nat
  | [] => 0
  | (_, .ok r) :: rest => r.usage.prompt_tokens + promptSum rest
  | (_, .error _) :: rest => promptSum rest

/-- Sum of the `total_tokens` counts of the successful calls of a trace. -/
def totalSum : List (List (String × String) × Except String (EmbResponse α)) → Nat
  | [] => 0
  | (_, .ok r) :: rest => r.usage.total_tokens + totalSum rest
  | (_, .error _) :: rest => totalSum rest

theorem embedBatchGo_eq (cfg : Config) (client : ApiClient α)
    (bs : List (List (String × String))) :
    ∀ (i : Nat) (st : EmbState α),
    embedBatchGo cfg client i bs st =
      { all_embeddings := st.all_embeddings ++ okData (outs client i bs)
        meta := metaFold st.meta (outs client i bs)
        logs := st.logs ++ errLogs (outs client i bs)
        requests := st.requests ++ bs.map (reqOf cfg) } := by
  induction bs with
  | nil => intro i st; simp [embedBatchGo, outs, okData, errLogs, metaFold]
  | cons b bs ih =>
    intro i st
    rw [embedBatchGo, ih]
    cases h : client i with
    | error e =>
      simp [outs, okData, errLogs, metaFold, processBatch, h, List.append_assoc]
    | ok r =>
      simp only [outs, okData, errLogs, metaFold, metaStep, processBatch, h]
      split <;> simp [List.append_assoc]

/-- The state after `_embed_batch`, in closed form. -/
theorem embed_batch_eq (cfg : Config) (client : ApiClient α)
    (texts : List (String × String)) (n : Nat) :
    embed_batch cfg client texts n =
      { all_embeddings := okData (outs client 0 (batched n texts))
        meta := metaFold ⟨"", ⟨0, 0⟩⟩ (outs client 0 (batched n texts))
        logs := errLogs (outs client 0 (batched n texts))
        requests := (batched n texts).map (reqOf cfg) } := by
  rw [embed_batch, embedBatchGo_eq]
  simp

theorem outs_map_fst (client : ApiClient α) :
    ∀ (i : Nat) (bs : List (List (String × String))),
    (outs client i bs).map Prod.fst = bs := by
  intro i bs
  induction bs generalizing i with
  | nil => simp [outs]
  | cons b bs ih => simp [outs, ih]

/-! ## Properties of `batched` -/

theorem batchedF_fuel_eq (n : Nat) :
    ∀ (fuel1 fuel2 : Nat) (l : List β), l.length ≤ fuel1 → l.length ≤ fuel2 →
    batchedF n fuel1 l = batchedF n fuel2 l := by
  intro fuel1
  induction fuel1 with
  | zero =>
    intro fuel2 l h1 _
    have : l = [] := List.eq_nil_of_length_eq_zero (Nat.le_zero.mp h1)
    subst this
    cases fuel2 <;> rfl
  | succ f ih =>
    intro fuel2 l h1 h2
    cases l with
    | nil => cases fuel2 <;> rfl
    | cons x xs =>
      cases fuel2 with
      | zero => simp at h2
      | succ g =>
        simp only [batchedF]
        have hd : (xs.drop (n - 1)).length ≤ xs.length := by
          simp [List.length_drop]
        have h1' : xs.length ≤ f := by simpa using h1
        have h2' : xs.length ≤ g := by simpa using h2
        rw [ih g (xs.drop (n - 1)) (le_trans hd h1') (le_trans hd h2')]

theorem batchedF_nil (n : Nat) (fuel : Nat) : batchedF n fuel ([] : List β) = [] := by
  cases fuel <;> rfl

theorem batched_cons (n : Nat) (x : β) (xs : List β) :
    batched n (x :: xs) = (x :: xs.take (n - 1)) :: batched n (xs.drop (n - 1)) := by
  show batchedF n ((x :: xs).length) (x :: xs) = _
  simp only [List.length_cons, batchedF]
  congr 1
  exact batchedF_fuel_eq n xs.length (xs.drop (n - 1)).length (xs.drop (n - 1))
    (by simp [List.length_drop]) le_rfl

theorem batchedF_flatten (n : Nat) :
    ∀ (fuel : Nat) (l : List β), l.length ≤ fuel → (batchedF n fuel l).flatten = l := by
  intro fuel
  induction fuel with
  | zero =>
    intro l h
    have : l = [] := List.eq_nil_of_length_eq_zero (Nat.le_zero.mp h)
    subst this; rfl
  | succ f ih =>
    intro l h
    cases l with
    | nil => rfl
    | cons x xs =>
      have h1 : xs.length ≤ f := by simpa using h
      have hd : (xs.drop (n - 1)).length ≤ f := by
        simp only [List.length_drop]; omega
      simp only [batchedF, List.flatten_cons, ih (xs.drop (n - 1)) hd, List.cons_append,
        List.take_append_drop]

/-- The chunks of `batched` concatenate back to the input list. -/
theorem batched_flatten (n : Nat) (l : List β) : (batched n l).flatten = l :=
  batchedF_flatten n l.length l le_rfl

theorem batchedF_mem_length (n : Nat) (hn : 0 < n) :
    ∀ (fuel : Nat) (l : List β) (c : List β), l.length ≤ fuel →
    c ∈ batchedF n fuel l → c.length ≤ n ∧ c ≠ [] := by
  intro fuel
  induction fuel with
  | zero =>
    intro l c h hc
    have : l = [] := List.eq_nil_of_length_eq_zero (Nat.le_zero.mp h)
    subst this; simp [batchedF] at hc
  | succ f ih =>
    intro l c h hc
    cases l with
    | nil => simp [batchedF] at hc
    | cons x xs =>
      simp only [batchedF, List.mem_cons] at hc
      rcases hc with rfl | hc
      · constructor
        · simp only [List.length_cons, List.length_take]
          omega
        · simp
      · have hd : (xs.drop (n - 1)).length ≤ f := by
          simp only [List.length_drop]
          have : xs.length ≤ f := by simpa using h
          omega
        exact ih (xs.drop (n - 1)) c hd hc

/-- Every chunk of `batched` is nonempty and holds at most `n` elements. -/
theorem batched_mem_length (n : Nat) (hn : 0 < n) (l : List β) (c : List β)
    (hc : c ∈ batched n l) : c.length ≤ n ∧ c ≠ [] :=
  batchedF_mem_length n hn l.length l c le_rfl hc

theorem batchedF_eq_nil_iff (n : Nat) :
    ∀ (fuel : Nat) (l : List β), l.length ≤ fuel → (batchedF n fuel l = [] ↔ l = []) := by
  intro fuel l h
  cases l with
  | nil => cases fuel <;> simp [batchedF]
  | cons x xs =>
    cases fuel with
    | zero => simp at h
    | succ f => simp [batchedF]

theorem batched_eq_nil_iff (n : Nat) (l : List β) : batched n l = [] ↔ l = [] :=
  batchedF_eq_nil_iff n l.length l le_rfl

theorem batchedF_dropLast_length (n : Nat) (hn : 0 < n) :
    ∀ (fuel : Nat) (l : List β) (c : List β), l.length ≤ fuel →
    c ∈ (batchedF n fuel l).dropLast → c.length = n := by
  intro fuel
  induction fuel with
  | zero =>
    intro l c h hc
    have : l = [] := List.eq_nil_of_length_eq_zero (Nat.le_zero.mp h)
    subst this; simp [batchedF] at hc
  | succ f ih =>
    intro l c h hc
    cases l with
    | nil => simp [batchedF] at hc
    | cons x xs =>
      simp only [batchedF] at hc
      by_cases hrest : batchedF n f (xs.drop (n - 1)) = []
      · rw [hrest] at hc
        simp at hc
      · rw [List.dropLast_cons_of_ne_nil hrest, List.mem_cons] at hc
        have h1 : xs.length ≤ f := by simpa using h
        have hd : (xs.drop (n - 1)).length ≤ f := by
          simp only [List.length_drop]; omega
        rcases hc with rfl | hc
        · have hne : xs.drop (n - 1) ≠ [] := by
            intro hdn
            exact hrest (by rw [hdn]; exact batchedF_nil n f)
          have hlen : n - 1 < xs.length := by
            by_contra hcon
            exact hne (List.drop_eq_nil_of_le (by omega))
          simp only [List.length_cons, List.length_take]
          omega
        · exact ih (xs.drop (n - 1)) c hd hc

/-- Every chunk except possibly the last holds exactly `n` elements. -/
theorem batched_dropLast_length (n : Nat) (hn : 0 < n) (l : List β) (c : List β)
    (hc : c ∈ (batched n l).dropLast) : c.length = n :=
  batchedF_dropLast_length n hn l.length l c le_rfl hc

/-- Batch size 2 on a 5-element mapping: chunk sizes `[2, 2, 1]`. -/
theorem batched_two_of_length_five (l : List β) (h : l.length = 5) :
    (batched 2 l).map List.length = [2, 2, 1] := by
  cases l with
  | nil => simp at h
  | cons a l =>
    cases l with
    | nil => simp at h
    | cons b l =>
      cases l with
      | nil => simp at h
      | cons c l =>
        cases l with
        | nil => simp at h
        | cons d l =>
          cases l with
          | nil => simp at h
          | cons e l =>
            cases l with
            | nil => rfl
            | cons f l => simp at h

/-! ## Properties of `_prepare_texts_to_embed` -/

theorem dictInsert_of_not_mem {β : Type} (d : List (String × β)) (k : String) (v : β)
    (h : ∀ p ∈ d, p.1 ≠ k) : dictInsert d k v = d ++ [(k, v)] := by
  rw [dictInsert, if_neg]
  simp only [List.any_eq_true, beq_iff_eq, not_exists]
  intro p
  intro hc
  exact h p hc.1 hc.2

theorem dictInsert_length_le {β : Type} (d : List (String × β)) (k : String) (v : β) :
    (dictInsert d k v).length ≤ d.length + 1 := by
  rw [dictInsert]
  split
  · simp
  · simp

theorem dictInsert_length_of_mem {β : Type} (d : List (String × β)) (k : String) (v : β)
    (h : k ∈ d.map Prod.fst) : (dictInsert d k v).length = d.length := by
  rw [dictInsert, if_pos]
  · simp
  · simp only [List.any_eq_true, beq_iff_eq]
    simp only [List.mem_map] at h
    obtain ⟨p, hp, hk⟩ := h
    exact ⟨p, hp, hk⟩

theorem dictInsert_update_map_fst {β : Type} (d : List (String × β)) (k : String) (v : β) :
    (d.map fun p => if p.1 == k then (p.1, v) else p).map Prod.fst = d.map Prod.fst := by
  rw [List.map_map]
  apply List.map_congr_left
  intro p _
  simp only [Function.comp_apply]
  split <;> rfl

theorem dictInsert_keys_mono {β : Type} (d : List (String × β)) (k k' : String) (v : β)
    (h : k' ∈ d.map Prod.fst) : k' ∈ (dictInsert d k v).map Prod.fst := by
  rw [dictInsert]
  split
  · rw [dictInsert_update_map_fst]
    exact h
  · simp only [List.map_append, List.mem_append]
    exact Or.inl h

theorem dictInsert_key_self {β : Type} (d : List (String × β)) (k : String) (v : β) :
    k ∈ (dictInsert d k v).map Prod.fst := by
  rw [dictInsert]
  split
  · next hany =>
    rw [dictInsert_update_map_fst]
    simp only [List.any_eq_true, beq_iff_eq] at hany
    obtain ⟨p, hp, hk⟩ := hany
    simp only [List.mem_map]
    exact ⟨p, hp, hk⟩
  · simp

theorem prepare_foldl_of_nodup (cfg : Config) :
    ∀ (docs : List (Document α)) (acc : List (String × String)),
    (∀ d ∈ docs, ∀ p ∈ acc, p.1 ≠ d.id) → (docs.map Document.id).Nodup →
    docs.foldl (fun acc doc => dictInsert acc doc.id (textToEmbed cfg doc)) acc
      = acc ++ docs.map (fun d => (d.id, textToEmbed cfg d)) := by
  intro docs
  induction docs with
  | nil => intro acc _ _; simp
  | cons d ds ih =>
    intro acc hacc hnd
    simp only [List.foldl_cons]
    rw [dictInsert_of_not_mem acc d.id (textToEmbed cfg d)
      (fun p hp => hacc d (List.mem_cons_self d ds) p hp)]
    simp only [List.map_cons, List.nodup_cons] at hnd
    rw [ih (acc ++ [(d.id, textToEmbed cfg d)])]
    · simp
    · intro d' hd' p hp
      rcases List.mem_append.mp hp with hp | hp
      · exact hacc d' (List.mem_cons_of_mem d hd') p hp
      · simp only [List.mem_singleton] at hp
        subst hp
        intro hc
        apply hnd.1
        have hid : d.id = d'.id := hc
        rw [hid]
        exact List.mem_map_of_mem Document.id hd'
    · exact hnd.2

/-- With pairwise-distinct document ids, the prepared mapping is exactly one
entry per document, in input order. -/
theorem prepare_texts_of_nodup (cfg : Config) (docs : List (Document α))
    (h : (docs.map Document.id).Nodup) :
    prepare_texts_to_embed cfg docs = docs.map (fun d => (d.id, textToEmbed cfg d)) := by
  rw [prepare_texts_to_embed, prepare_foldl_of_nodup cfg docs [] (by simp) h]
  simp

theorem prepare_foldl_length_le (cfg : Config) :
    ∀ (docs : List (Document α)) (acc : List (String × String)),
    (docs.foldl (fun acc doc => dictInsert acc doc.id (textToEmbed cfg doc)) acc).length
      ≤ acc.length + docs.length := by
  intro docs
  induction docs with
  | nil => intro acc; simp
  | cons d ds ih =>
    intro acc
    simp only [List.foldl_cons, List.length_cons]
    calc (ds.foldl _ (dictInsert acc d.id (textToEmbed cfg d))).length
        ≤ (dictInsert acc d.id (textToEmbed cfg d)).length + ds.length := ih _
      _ ≤ acc.length + 1 + ds.length := by
          have := dictInsert_length_le acc d.id (textToEmbed cfg d)
          omega
      _ = acc.length + (ds.length + 1) := by omega

theorem prepare_foldl_length_lt (cfg : Config) :
    ∀ (docs : List (Document α)) (acc : List (String × String)),
    ((∃ d ∈ docs, d.id ∈ acc.map Prod.fst) ∨ ¬(docs.map Document.id).Nodup) →
    (docs.foldl (fun acc doc => dictInsert acc doc.id (textToEmbed cfg doc)) acc).length
      < acc.length + docs.length := by
  intro docs
  induction docs with
  | nil =>
    intro acc h
    rcases h with ⟨d, hd, _⟩ | h
    · simp at hd
    · simp at h
  | cons d ds ih =>
    intro acc h
    simp only [List.foldl_cons, List.length_cons]
    by_cases hmem : d.id ∈ acc.map Prod.fst
    · have hlen : (dictInsert acc d.id (textToEmbed cfg d)).length = acc.length :=
        dictInsert_length_of_mem acc d.id (textToEmbed cfg d) hmem
      have := prepare_foldl_length_le cfg ds (dictInsert acc d.id (textToEmbed cfg d))
      omega
    · have hlen : (dictInsert acc d.id (textToEmbed cfg d)).length ≤ acc.length + 1 :=
        dictInsert_length_le acc d.id (textToEmbed cfg d)
      have hnext : (∃ d' ∈ ds, d'.id ∈ (dictInsert acc d.id (textToEmbed cfg d)).map Prod.fst)
          ∨ ¬(ds.map Document.id).Nodup := by
        rcases h with ⟨d', hd', hmem'⟩ | hnd
        · rcases List.mem_cons.mp hd' with rfl | hd'
          · exact absurd hmem' hmem
          · exact Or.inl ⟨d', hd',
              dictInsert_keys_mono acc d.id d'.id (textToEmbed cfg d) hmem'⟩
        · simp only [List.map_cons, List.nodup_cons, not_and_or] at hnd
          rcases hnd with hnd | hnd
          · rw [not_not] at hnd
            simp only [List.mem_map] at hnd
            obtain ⟨d', hd', hid⟩ := hnd
            exact Or.inl ⟨d', hd',
              hid ▸ dictInsert_key_self acc d.id (textToEmbed cfg d)⟩
          · exact Or.inr hnd
      have := ih (dictInsert acc d.id (textToEmbed cfg d)) hnext
      omega

/-- With a repeated document id, strictly fewer texts are prepared than there
are documents. -/
theorem prepare_texts_lt_of_dup (cfg : Config) (docs : List (Document α))
    (h : ¬(docs.map Document.id).Nodup) :
    (prepare_texts_to_embed cfg docs).length < docs.length := by
  have := prepare_foldl_length_lt cfg docs [] (Or.inr h)
  simpa [prepare_texts_to_embed] using this

/-! ## Properties of the result assembler and `run` -/

theorem assignEmbeddings_length :
    ∀ (ds : List (Document α)) (es : List α), (assignEmbeddings ds es).length = ds.length := by
  intro ds
  induction ds with
  | nil => intro es; cases es <;> rfl
  | cons d ds ih =>
    intro es
    cases es with
    | nil => rfl
    | cons e es => simp [assignEmbeddings, ih]

theorem assignEmbeddings_getElem?_of_le :
    ∀ (ds : List (Document α)) (es : List α) (k : Nat), es.length ≤ k →
    (assignEmbeddings ds es)[k]? = ds[k]? := by
  intro ds
  induction ds with
  | nil => intro es k _; cases es <;> rfl
  | cons d ds ih =>
    intro es k hk
    cases es with
    | nil => rfl
    | cons e es =>
      cases k with
      | zero => simp at hk
      | succ k =>
        simp only [assignEmbeddings, List.getElem?_cons_succ]
        exact ih es k (by simpa using hk)

theorem assignEmbeddings_eq_zipWith :
    ∀ (ds : List (Document α)) (es : List α), es.length = ds.length →
    assignEmbeddings ds es
      = List.zipWith (fun d e => { d with embedding := some e }) ds es := by
  intro ds
  induction ds with
  | nil => intro es h; cases es <;> simp_all [assignEmbeddings]
  | cons d ds ih =>
    intro es h
    cases es with
    | nil => simp at h
    | cons e es =>
      simp only [assignEmbeddings, List.zipWith_cons_cons]
      rw [ih es (by simpa using h)]

theorem all_isDocObj_map (docs : List (Document α)) :
    (docs.map PyObj.doc).all isDocObj = true := by
  induction docs with
  | nil => rfl
  | cons d ds ih => simp [isDocObj, ih]

theorem filterMap_docOf_map (docs : List (Document α)) :
    (docs.map PyObj.doc).filterMap docOf = docs := by
  induction docs with
  | nil => rfl
  | cons d ds ih => simp [docOf, ih]

/-- On a list of `Document`s, `run` performs `runOnDocs` and raises nothing. -/
theorem run_on_doc_list (cfg : Config) (client : ApiClient α) (docs : List (Document α)) :
    run cfg client (.list (docs.map PyObj.doc)) = .ok (runOnDocs cfg client docs) := by
  simp only [run]
  rw [if_pos (all_isDocObj_map docs), filterMap_docOf_map]

theorem all_isDocObj_iff (items : List (PyObj α)) :
    items.all isDocObj = true ↔ ∃ docs : List (Document α), items = docs.map PyObj.doc := by
  induction items with
  | nil => exact ⟨fun _ => ⟨[], rfl⟩, fun _ => rfl⟩
  | cons o items ih =>
    cases o with
    | doc d =>
      simp only [List.all_cons, isDocObj, Bool.true_and]
      constructor
      · intro h
        obtain ⟨docs, hdocs⟩ := ih.mp h
        exact ⟨d :: docs, by simp [hdocs]⟩
      · intro ⟨docs, hdocs⟩
        cases docs with
        | nil => simp at hdocs
        | cons d' docs' =>
          simp only [List.map_cons, List.cons.injEq] at hdocs
          exact ih.mpr ⟨docs', hdocs.2⟩
    | str s =>
      simp only [List.all_cons, isDocObj, Bool.false_and]
      constructor
      · intro h; simp at h
      · rintro ⟨docs, hdocs⟩
        cases docs <;> simp at hdocs
    | other =>
      simp only [List.all_cons, isDocObj, Bool.false_and]
      constructor
      · intro h; simp at h
      · rintro ⟨docs, hdocs⟩
        cases docs <;> simp at hdocs

/-! ## Properties of the trace folds -/

theorem okData_append (z₁ z₂ : List (List (String × String) × Except String (EmbResponse α))) :
    okData (z₁ ++ z₂) = okData z₁ ++ okData z₂ := by
  induction z₁ with
  | nil => simp [okData]
  | cons p z₁ ih =>
    obtain ⟨b, o⟩ := p
    cases o <;> simp [okData, ih]

theorem errLogs_append (z₁ z₂ : List (List (String × String) × Except String (EmbResponse α))) :
    errLogs (z₁ ++ z₂) = errLogs z₁ ++ errLogs z₂ := by
  induction z₁ with
  | nil => simp [errLogs]
  | cons p z₁ ih =>
    obtain ⟨b, o⟩ := p
    cases o <;> simp [errLogs, ih]

theorem okData_length_of_conform
    (z : List (List (String × String) × Except String (EmbResponse α)))
    (h : ∀ p ∈ z, ∃ r, p.2 = Except.ok r ∧ r.data.length = p.1.length) :
    (okData z).length = (z.map Prod.fst).flatten.length := by
  induction z with
  | nil => rfl
  | cons p z ih =>
    obtain ⟨b, o⟩ := p
    obtain ⟨r, hr, hlen⟩ := h (b, o) (List.mem_cons_self _ _)
    subst hr
    simp only [okData, List.map_cons, List.flatten_cons, List.length_append]
    rw [ih (fun p hp => h p (List.mem_cons_of_mem _ hp))]
    simp at hlen
    omega

theorem errLogs_eq_nil (z : List (List (String × String) × Except String (EmbResponse α)))
    (h : ∀ p ∈ z, ∃ r, p.2 = Except.ok r) : errLogs z = [] := by
  induction z with
  | nil => rfl
  | cons p z ih =>
    obtain ⟨b, o⟩ := p
    obtain ⟨r, hr⟩ := h (b, o) (List.mem_cons_self _ _)
    subst hr
    exact ih (fun p hp => h p (List.mem_cons_of_mem _ hp))

theorem metaFold_model_ne :
    ∀ (z : List (List (String × String) × Except String (EmbResponse α))) (m : EmbMeta),
    m.model ≠ "" →
    metaFold m z = ⟨m.model,
      ⟨m.usage.prompt_tokens + promptSum z, m.usage.total_tokens + totalSum z⟩⟩ := by
  intro z
  induction z with
  | nil => intro m _; simp [metaFold, promptSum, totalSum]
  | cons p z ih =>
    intro m hm
    obtain ⟨b, o⟩ := p
    cases o with
    | error e => simp only [metaFold, promptSum, totalSum]; exact ih m hm
    | ok r =>
      simp only [metaFold, metaStep, if_neg hm, promptSum, totalSum]
      rw [ih _ (by simpa using hm)]
      simp only [EmbMeta.mk.injEq, Usage.mk.injEq, true_and]
      omega

theorem metaFold_usage_from_empty
    (z : List (List (String × String) × Except String (EmbResponse α)))
    (hok : ∀ p ∈ z, ∃ r, p.2 = Except.ok r)
    (hm : ∀ b (r : EmbResponse α), z.head? = some (b, Except.ok r) → r.model ≠ "") :
    (metaFold ⟨"", ⟨0, 0⟩⟩ z).usage = ⟨promptSum z, totalSum z⟩ := by
  cases z with
  | nil => rfl
  | cons p z =>
    obtain ⟨b, o⟩ := p
    obtain ⟨r, hr⟩ := hok (b, o) (List.mem_cons_self _ _)
    subst hr
    have hrm : r.model ≠ "" := hm b r rfl
    have hstep : metaStep (⟨"", ⟨0, 0⟩⟩ : EmbMeta) r = ⟨r.model, r.usage⟩ := by
      simp [metaStep]
    simp only [metaFold, hstep]
    rw [metaFold_model_ne z ⟨r.model, r.usage⟩ hrm]
    simp [promptSum, totalSum]

theorem logMsg_mem_errLogs (b : List (String × String)) (e : String) :
    ∀ z : List (List (String × String) × Except String (EmbResponse α)),
    (b, Except.error e) ∈ z → logMsg b e ∈ errLogs z := by
  intro z
  induction z with
  | nil => intro h; simp at h
  | cons p z ih =>
    intro h
    obtain ⟨b', o⟩ := p
    rcases List.mem_cons.mp h with heq | hmem
    · rw [Prod.mk.injEq] at heq
      rw [← heq.1, ← heq.2]
      simp [errLogs]
    · cases o with
      | ok r => exact ih hmem
      | error e' => exact List.mem_cons_of_mem _ (ih hmem)

/-! ## The text-preparation rule as the spec words it

`prepareTextSpec` restates §4.1 independently of the source translation:
take the configured metadata fields that are present and non-null (in order),
append the content (empty if absent), interleave the separator between
consecutive parts, wrap with prefix/suffix, and replace every newline
character by a space. -/

/-- Spec §4.1: stringified values of the configured metadata fields that are
present and non-null, in configured order. -/
def specMetaVals (meta : List (String × Option String)) : List String → List String
  | [] => []
  | key :: keys =>
    match meta.find? (fun p => p.1 == key) with
    | some (_, some v) => v :: specMetaVals meta keys
    | _ => specMetaVals meta keys

/-- Spec §4.1: replace every newline character with a space. -/
def specReplaceNl : List Char → List Char
  | [] => []
  | c :: cs => (if c = '\n' then ' ' else c) :: specReplaceNl cs

/-- Spec §4.1: join the parts with the separator between consecutive parts. -/
def specJoin (sep : String) (parts : List String) : String :=
  match parts with
  | [] => ""
  | s :: rest => rest.foldl (fun acc t => acc ++ sep ++ t) s

/-- Spec §4.1: the whole text-preparation rule, stated from the spec's
words. -/
def prepareTextSpec (cfg : Config) (doc : Document α) : String :=
  ⟨specReplaceNl
    (cfg.pfx ++ specJoin cfg.embedding_separator
        (specMetaVals doc.meta cfg.meta_fields_to_embed ++ [doc.content.getD ""])
      ++ cfg.sfx).data⟩

theorem specMetaVals_eq (meta : List (String × Option String)) :
    ∀ fields : List String,
    specMetaVals meta fields
      = fields.filterMap (fun key =>
          match meta.find? (fun p => p.1 == key) with
          | some (_, some v) => some v
          | _ => none) := by
  intro fields
  induction fields with
  | nil => rfl
  | cons key keys ih =>
    simp only [specMetaVals, List.filterMap_cons]
    cases hf : meta.find? (fun p => p.1 == key) with
    | none => exact ih
    | some p =>
      obtain ⟨k, v⟩ := p
      cases v with
      | none => exact ih
      | some v => simp [ih]

theorem specReplaceNl_eq (cs : List Char) :
    specReplaceNl cs = cs.map fun c => if c = '\n' then ' ' else c := by
  induction cs with
  | nil => rfl
  | cons c cs ih => simp [specReplaceNl, ih]

theorem pyJoin_foldl (sep : String) :
    ∀ (rest : List String) (x : String),
    rest.foldl (fun acc t => acc ++ sep ++ t) x = pyJoin sep (x :: rest) := by
  intro rest
  induction rest with
  | nil => intro x; rfl
  | cons t ts ih =>
    intro x
    simp only [List.foldl_cons]
    rw [ih (x ++ sep ++ t)]
    cases ts with
    | nil => rfl
    | cons u us =>
      show (x ++ sep ++ t) ++ sep ++ pyJoin sep (u :: us)
        = x ++ sep ++ (t ++ sep ++ pyJoin sep (u :: us))
      simp [String.append_assoc]

theorem specJoin_eq (sep : String) (parts : List String) :
    specJoin sep parts = pyJoin sep parts := by
  cases parts with
  | nil => rfl
  | cons s rest => exact pyJoin_foldl sep rest s

/-! ## Concrete fixtures used by witnesses and counterexamples -/

/-- A minimal valid configuration (batch size 1, deployment `"m"`, no
metadata fields, newline separator, empty prefix/suffix). -/
def exCfg : Config where
  azure_endpoint := "https://example.test"
  api_version := some "2023-05-15"
  azure_deployment := "m"
  dimensions := none
  api_key := some ⟨["AZURE_OPENAI_API_KEY"], false⟩
  azure_ad_token := none
  organization := none
  pfx := ""
  sfx := ""
  batch_size := 1
  progress_bar := true
  meta_fields_to_embed := []
  embedding_separator := "\n"
  timeout := 30
  max_retries := 5
  default_headers := []
  azure_ad_token_provider := none
  http_client_kwargs := none

/-- `exCfg` with the default batch size 32. -/
def exCfgB : Config := { exCfg with batch_size := 32 }

def docA : Document Nat := ⟨"a", some "x", [], none⟩

def docB : Document Nat := ⟨"b", some "y", [], none⟩

/-- Same id as `docA`, different content. -/
def docA2 : Document Nat := ⟨"a", some "y", [], none⟩

/-- Remote behaviour: the first call fails with an API error, later calls
succeed with one vector. -/
def failFirstClient : ApiClient Nat := fun i =>
  if i = 0 then .error "boom" else .ok ⟨[7], "m", ⟨1, 2⟩⟩

/-- Remote behaviour: every call succeeds with one vector. -/
def okClient : ApiClient Nat := fun _ => .ok ⟨[7], "m", ⟨1, 2⟩⟩

def pizzaDoc : Document Nat := ⟨"p", some "I love pizza!", [("topic", some "food")], none⟩

/-- `exCfg` with the metadata field `"topic"` configured for embedding. -/
def exCfgTopic : Config := { exCfg with meta_fields_to_embed := ["topic"] }

/-- Valid constructor arguments: explicit endpoint, API key from the
environment-variable secret default, everything else defaulted. -/
def pBase : InitParams where
  azure_endpoint := some "https://example.test"
  api_version := some "2023-05-15"
  azure_deployment := "m"
  dimensions := none
  api_key := some ⟨["AZURE_OPENAI_API_KEY"], false⟩
  azure_ad_token := none
  organization := none
  pfx := ""
  sfx := ""
  batch_size := 32
  progress_bar := true
  meta_fields_to_embed := none
  embedding_separator := "\n"
  timeout := none
  max_retries := none
  default_headers := none
  azure_ad_token_provider := none
  http_client_kwargs := none

def envNone : Env := ⟨none, none, none⟩

/-- Constructor arguments with no API key and no AD token, but with a
token-provider callable. -/
def pTokProv : InitParams :=
  { pBase with api_key := none, azure_ad_token_provider := some "my_ad_token_provider" }

def exTexts5 : List (String × String) :=
  [("1", "a"), ("2", "b"), ("3", "c"), ("4", "d"), ("5", "e")]

/-! ## Claims -/

/-- C4: for every identifier-to-text mapping and every positive batch size
`n`, `_embed_batch` partitions the entries into consecutive groups of size at
most `n` in the original order, only the last group may be smaller than `n`,
one request is issued per group with the texts in input order, and with batch
size 2 and 5 entries the group sizes are `[2, 2, 1]`. -/
theorem C4_batch_partition (cfg : Config) (client : ApiClient α)
    (texts : List (String × String)) (n : Nat) (hn : 0 < n) :
    (batched n texts).flatten = texts
    ∧ (∀ c ∈ batched n texts, c.length ≤ n ∧ c ≠ [])
    ∧ (∀ c ∈ (batched n texts).dropLast, c.length = n)
    ∧ (embed_batch cfg client texts n).requests = (batched n texts).map (reqOf cfg)
    ∧ ((embed_batch cfg client texts n).requests.map EmbedRequest.input).flatten
        = texts.map Prod.snd
    ∧ (texts.length = 5 → (batched 2 texts).map List.length = [2, 2, 1]) := by
  refine ⟨batched_flatten n texts,
    fun c hc => batched_mem_length n hn texts c hc,
    fun c hc => batched_dropLast_length n hn texts c hc,
    ?_, ?_, fun h5 => batched_two_of_length_five texts h5⟩
  · rw [embed_batch_eq]
  · rw [embed_batch_eq]
    simp only [List.map_map]
    have hco : (EmbedRequest.input ∘ reqOf cfg) = fun b : List (String × String) =>
        b.map Prod.snd := rfl
    rw [hco, ← List.map_flatten, batched_flatten]

/-- C4 witness: the partition facts at batch size 2 on a concrete 5-entry
mapping. -/
theorem C4_batch_partition_witness :
    (batched 2 exTexts5).flatten = exTexts5
    ∧ (batched 2 exTexts5).map List.length = [2, 2, 1]
    ∧ (embed_batch exCfg okClient exTexts5 2).requests = (batched 2 exTexts5).map (reqOf exCfg) := by
  have h := C4_batch_partition exCfg okClient exTexts5 2 (by decide)
  exact ⟨h.1, h.2.2.2.2.2 (by decide), h.2.2.2.1⟩

/-- C5: the prepared embedding text is prefix, then the configured present
non-null metadata values and the content (empty if absent) joined by the
separator, then suffix, with every newline replaced by a space; on content
`"I love pizza!"` with no metadata fields it is exactly `"I love pizza!"`,
and with metadata field `"topic": "food"` it is `"food I love pizza!"`. -/
theorem C5_prepare_text (cfg : Config) (doc : Document α) :
    textToEmbed cfg doc = prepareTextSpec cfg doc
    ∧ textToEmbed exCfg pizzaDoc = "I love pizza!"
    ∧ textToEmbed exCfgTopic pizzaDoc = "food I love pizza!" := by
  refine ⟨?_, by decide, by decide⟩
  rw [textToEmbed, prepareTextSpec, specJoin_eq, specMetaVals_eq, specReplaceNl_eq]
  rfl

/-- C6: constructing without an explicit endpoint and without the
`AZURE_OPENAI_ENDPOINT` environment fallback fails immediately with the
configuration error, and no network client is created (empty event list). -/
theorem C6_missing_endpoint (p : InitParams) (env : Env)
    (h1 : p.azure_endpoint = none) (h2 : env.azure_openai_endpoint = none) :
    init p env = ([], .error (.valueError
      "Please provide an Azure endpoint or set the environment variable AZURE_OPENAI_ENDPOINT.")) := by
  simp [init, pyOrStr, strTruthy, h1, h2]

/-- C6 witness: the missing-endpoint failure at concrete arguments. -/
theorem C6_missing_endpoint_witness :
    init { pBase with azure_endpoint := none } envNone
      = ([], .error (.valueError
        "Please provide an Azure endpoint or set the environment variable AZURE_OPENAI_ENDPOINT.")) :=
  C6_missing_endpoint { pBase with azure_endpoint := none } envNone rfl rfl

/-- C7 counterexample: constructing with no API key and no AD token but with
a token-provider callable (and a resolvable endpoint) raises the credential
configuration error — the token provider does not count as a credential,
refuting "constructing with at least one of the three succeeds". -/
theorem C7_counterexample :
    pTokProv.api_key = none
    ∧ pTokProv.azure_ad_token = none
    ∧ pTokProv.azure_ad_token_provider = some "my_ad_token_provider"
    ∧ strTruthy (pyOrStr pTokProv.azure_endpoint envNone.azure_openai_endpoint) = true
    ∧ init pTokProv envNone
        = ([], .error (.valueError "Please provide an API key or an Azure Active Directory token.")) := by
  decide

/-- C7 (amended): with a resolvable endpoint, construction fails with the
credential configuration error if and only if both the API key and the AD
token are absent; the token-provider callable is not consulted by the
check. -/
theorem C7_credential_check_amended (p : InitParams) (env : Env)
    (hend : strTruthy (pyOrStr p.azure_endpoint env.azure_openai_endpoint) = true) :
    ((∃ cfg, init p env = ([InitEvent.createClient], Except.ok cfg))
      ↔ ¬(p.api_key = none ∧ p.azure_ad_token = none))
    ∧ ((init p env = ([], Except.error (InitError.valueError
          "Please provide an API key or an Azure Active Directory token.")))
      ↔ (p.api_key = none ∧ p.azure_ad_token = none)) := by
  have hend' : ¬(strTruthy (pyOrStr p.azure_endpoint env.azure_openai_endpoint) = false) := by
    rw [hend]; simp
  simp only [init]
  rw [if_neg hend']
  by_cases hc : p.api_key = none ∧ p.azure_ad_token = none
  · rw [if_pos (by simp [Option.isNone_iff_eq_none, hc.1, hc.2])]
    constructor
    · constructor
      · rintro ⟨cfg, hcfg⟩
        exact absurd hcfg (by simp)
      · intro h
        exact absurd hc h
    · exact ⟨fun _ => hc, fun _ => rfl⟩
  · rw [if_neg (by simp only [Bool.and_eq_true, Option.isNone_iff_eq_none]; exact hc)]
    constructor
    · constructor
      · intro _; exact hc
      · intro _; exact ⟨_, rfl⟩
    · constructor
      · intro h; exact absurd h (by simp)
      · intro h; exact absurd h hc

/-- C7 witness: with an API key (and no AD token, no provider) construction
succeeds; with both API key and AD token absent it fails with the credential
error. -/
theorem C7_credential_check_amended_witness :
    (∃ cfg, init pBase envNone = ([InitEvent.createClient], Except.ok cfg))
    ∧ (init { pBase with api_key := none } envNone
        = ([], Except.error (InitError.valueError
            "Please provide an API key or an Azure Active Directory token."))) := by
  constructor
  · exact (C7_credential_check_amended pBase envNone (by decide)).1.mpr (by decide)
  · exact (C7_credential_check_amended { pBase with api_key := none } envNone (by decide)).2.mpr
      (by decide)

/-- C9: `run` raises the `TypeError` exactly when the input is not a list
whose elements are all `Document` instances; on any list of `Document`s
(including the empty list) it does not raise it. -/
theorem C9_type_check (cfg : Config) (client : ApiClient α) (input : PyInput α) :
    (run cfg client input = .error (.typeError
        "Input must be a list of Document instances. For strings, use AzureOpenAITextEmbedder."))
      ↔ ¬∃ docs : List (Document α), input = .list (docs.map PyObj.doc) := by
  cases input with
  | nonList =>
    simp only [run]
    constructor
    · rintro _ ⟨docs, hdocs⟩
      cases hdocs
    · intro _
      trivial
  | list items =>
    by_cases h : items.all isDocObj
    · simp only [run]
      rw [if_pos h]
      obtain ⟨docs, hdocs⟩ := (all_isDocObj_iff items).mp h
      subst hdocs
      constructor
      · intro hcon
        exact absurd hcon (by simp)
      · intro hne
        exact absurd ⟨docs, rfl⟩ hne
    · simp only [run]
      rw [if_neg h]
      constructor
      · intro _
        rintro ⟨docs, hdocs⟩
        injection hdocs with h2
        subst h2
        exact h (all_isDocObj_map docs)
      · intro _
        trivial

/-- C9 witness: a non-list input raises the `TypeError`. -/
theorem C9_type_check_witness :
    run exCfg okClient PyInput.nonList = .error (.typeError
      "Input must be a list of Document instances. For strings, use AzureOpenAITextEmbedder.") :=
  (C9_type_check exCfg okClient PyInput.nonList).mpr (by rintro ⟨docs, hdocs⟩; cases hdocs)

/-- C3: an API error on a batch's remote call never makes `run` raise: `run`
returns normally, the failed batch contributes no vectors (the collected
vectors come from successful calls only), exactly one request is made per
batch (no retry at this layer), and every failed batch leaves a log entry
naming its document identifiers. -/
theorem C3_api_errors_nonfatal (cfg : Config) (client : ApiClient α) (docs : List (Document α))
    (z : List (List (String × String) × Except String (EmbResponse α)))
    (hz : z = outs client 0 (batched cfg.batch_size (prepare_texts_to_embed cfg docs))) :
    run cfg client (.list (docs.map PyObj.doc)) = .ok (runOnDocs cfg client docs)
    ∧ (runOnDocs cfg client docs).logs = errLogs z
    ∧ (runOnDocs cfg client docs).requests
        = (batched cfg.batch_size (prepare_texts_to_embed cfg docs)).map (reqOf cfg)
    ∧ (embed_batch cfg client (prepare_texts_to_embed cfg docs) cfg.batch_size).all_embeddings
        = okData z
    ∧ ∀ b e, (b, Except.error e) ∈ z → logMsg b e ∈ (runOnDocs cfg client docs).logs := by
  subst hz
  have hst := embed_batch_eq cfg client (prepare_texts_to_embed cfg docs) cfg.batch_size
  refine ⟨run_on_doc_list cfg client docs, ?_, ?_, ?_, ?_⟩
  · simp only [runOnDocs, hst]
  · simp only [runOnDocs, hst]
  · rw [hst]
  · intro b e hmem
    have hlogs : (runOnDocs cfg client docs).logs
        = errLogs (outs client 0 (batched cfg.batch_size (prepare_texts_to_embed cfg docs))) := by
      simp only [runOnDocs, hst]
    rw [hlogs]
    exact logMsg_mem_errLogs b e _ hmem

/-- C3 witness: with the first call failing, `run` still returns normally and
the failed batch's identifier appears in a log entry. -/
theorem C3_api_errors_nonfatal_witness :
    run exCfg failFirstClient (.list [PyObj.doc docA, PyObj.doc docB])
      = .ok (runOnDocs exCfg failFirstClient [docA, docB])
    ∧ logMsg [("a", "x")] "boom" ∈ (runOnDocs exCfg failFirstClient [docA, docB]).logs := by
  have h := C3_api_errors_nonfatal exCfg failFirstClient [docA, docB] _ rfl
  exact ⟨h.1, h.2.2.2.2 [("a", "x")] "boom" (by decide)⟩

/-- C1 counterexample: with batch size 1 and documents `a`, `b`, the first
batch (holding exactly document `a`) fails and the second succeeds; document
`a` — a member of the failed batch — nevertheless ends with an embedding
attached (the vector returned for document `b`'s text), and document `b`,
whose batch succeeded, ends with no embedding.  This refutes both "none of
that failed batch's member documents receive an embedding" and the
index-alignment clause. -/
theorem C1_counterexample :
    batched 1 (prepare_texts_to_embed exCfg [docA, docB]) = [[("a", "x")], [("b", "y")]]
    ∧ failFirstClient 0 = Except.error "boom"
    ∧ failFirstClient 1 = Except.ok ⟨[7], "m", ⟨1, 2⟩⟩
    ∧ (runOnDocs exCfg failFirstClient [docA, docB]).documents
        = [⟨"a", some "x", [], some 7⟩, docB]
    ∧ docA.embedding = none
    ∧ docB.embedding = none := by
  decide

/-- C1 (amended): if the `j`-th batch's call fails with an API error while
every other batch succeeds returning one vector per text, and the document
identifiers are pairwise distinct, then: exactly one log entry is emitted and
it names the failed batch's document identifiers; the total vector count is
the document count minus the failed batch's size; and the *last* documents
of the input (as many as the failed batch's size) keep their embedding field
unchanged — the failed batch's own members are left unset only when the
failed batch is the final one. -/
theorem C1_batch_failure_amended (cfg : Config) (client : ApiClient α)
    (docs : List (Document α))
    (z₁ z₂ : List (List (String × String) × Except String (EmbResponse α)))
    (bj : List (String × String)) (e : String)
    (hids : (docs.map Document.id).Nodup)
    (hsplit : outs client 0 (batched cfg.batch_size (prepare_texts_to_embed cfg docs))
        = z₁ ++ (bj, Except.error e) :: z₂)
    (h₁ : ∀ p ∈ z₁, ∃ r, p.2 = Except.ok r ∧ r.data.length = p.1.length)
    (h₂ : ∀ p ∈ z₂, ∃ r, p.2 = Except.ok r ∧ r.data.length = p.1.length) :
    (runOnDocs cfg client docs).logs = [logMsg bj e]
    ∧ (embed_batch cfg client (prepare_texts_to_embed cfg docs) cfg.batch_size).all_embeddings.length
        = docs.length - bj.length
    ∧ (runOnDocs cfg client docs).documents.length = docs.length
    ∧ ∀ k, docs.length - bj.length ≤ k →
        (runOnDocs cfg client docs).documents[k]? = docs[k]? := by
  have hst := embed_batch_eq cfg client (prepare_texts_to_embed cfg docs) cfg.batch_size
  have hTlen : (prepare_texts_to_embed cfg docs).length = docs.length := by
    rw [prepare_texts_of_nodup cfg docs hids, List.length_map]
  have hBsplit : batched cfg.batch_size (prepare_texts_to_embed cfg docs)
      = z₁.map Prod.fst ++ bj :: z₂.map Prod.fst := by
    rw [← outs_map_fst client 0 (batched cfg.batch_size (prepare_texts_to_embed cfg docs)),
      hsplit]
    simp
  have hflat := batched_flatten cfg.batch_size (prepare_texts_to_embed cfg docs)
  have hlen' := congrArg List.length hflat
  rw [hBsplit] at hlen'
  simp only [List.flatten_append, List.flatten_cons, List.length_append] at hlen'
  have hokZ : okData (outs client 0 (batched cfg.batch_size (prepare_texts_to_embed cfg docs)))
      = okData z₁ ++ okData z₂ := by
    rw [hsplit, okData_append]
    simp [okData]
  have hok1len : (okData z₁).length = (z₁.map Prod.fst).flatten.length :=
    okData_length_of_conform z₁ h₁
  have hok2len : (okData z₂).length = (z₂.map Prod.fst).flatten.length :=
    okData_length_of_conform z₂ h₂
  have hembLen : (okData (outs client 0
      (batched cfg.batch_size (prepare_texts_to_embed cfg docs)))).length
      = docs.length - bj.length := by
    rw [hokZ, List.length_append, hok1len, hok2len]
    omega
  have hlogs : errLogs (outs client 0 (batched cfg.batch_size (prepare_texts_to_embed cfg docs)))
      = [logMsg bj e] := by
    rw [hsplit, errLogs_append,
      errLogs_eq_nil z₁ (fun p hp => (h₁ p hp).imp fun r hr => hr.1)]
    simp [errLogs, errLogs_eq_nil z₂ (fun p hp => (h₂ p hp).imp fun r hr => hr.1)]
  refine ⟨?_, ?_, ?_, ?_⟩
  · simp only [runOnDocs, hst]
    exact hlogs
  · rw [hst]
    exact hembLen
  · simp only [runOnDocs, hst]
    rw [assignEmbeddings_length]
  · intro k hk
    simp only [runOnDocs, hst]
    apply assignEmbeddings_getElem?_of_le
    rw [hembLen]
    exact hk

/-- C1 witness: the amended statement at batch size 1 with documents `a`, `b`
and the first call failing. -/
theorem C1_batch_failure_amended_witness :
    (runOnDocs exCfg failFirstClient [docA, docB]).logs = [logMsg [("a", "x")] "boom"]
    ∧ (embed_batch exCfg failFirstClient (prepare_texts_to_embed exCfg [docA, docB])
        exCfg.batch_size).all_embeddings.length = 1
    ∧ (runOnDocs exCfg failFirstClient [docA, docB]).documents.length = 2
    ∧ (runOnDocs exCfg failFirstClient [docA, docB]).documents[1]?
        = ([docA, docB] : List (Document Nat))[1]? := by
  have h := C1_batch_failure_amended exCfg failFirstClient [docA, docB]
    [] [([("b", "y")], Except.ok ⟨[7], "m", ⟨1, 2⟩⟩)] [("a", "x")] "boom"
    (by decide) (by decide)
    (by intro p hp; simp at hp)
    (by
      intro p hp
      rcases List.mem_cons.mp hp with rfl | hp
      · exact ⟨⟨[7], "m", ⟨1, 2⟩⟩, rfl, by decide⟩
      · simp at hp)
  exact ⟨h.1, h.2.1, h.2.2.1, h.2.2.2 1 (by decide)⟩

/-- C2 counterexample: two documents share the identifier `"a"`; the single
remote call succeeds and returns one vector per input text, yet only one
vector is produced for two input documents, and the second document ends
without an embedding — refuting the same-length/position-alignment and
count claims for inputs with duplicate identifiers. -/
theorem C2_counterexample :
    prepare_texts_to_embed exCfgB [docA, docA2] = [("a", "y")]
    ∧ outs okClient 0 (batched exCfgB.batch_size (prepare_texts_to_embed exCfgB [docA, docA2]))
        = [([("a", "y")], Except.ok ⟨[7], "m", ⟨1, 2⟩⟩)]
    ∧ (embed_batch exCfgB okClient (prepare_texts_to_embed exCfgB [docA, docA2])
        exCfgB.batch_size).all_embeddings.length = 1
    ∧ ([docA, docA2] : List (Document Nat)).length = 2
    ∧ (runOnDocs exCfgB okClient [docA, docA2]).documents
        = [⟨"a", some "x", [], some 7⟩, docA2]
    ∧ docA2.embedding = none := by
  decide

/-- C2 (amended): if the document identifiers are pairwise distinct and every
batch's remote call succeeds returning one vector per input text (with a
nonempty model name on the first response), then `run` returns the documents
in order, one per input, each with the positionally corresponding vector; the
vector count equals the document count; the embedded texts are exactly the
documents' prepared texts in order; and the aggregated usage is the sum of
the per-batch usage counts. -/
theorem C2_all_success_amended (cfg : Config) (client : ApiClient α) (docs : List (Document α))
    (z : List (List (String × String) × Except String (EmbResponse α)))
    (hz : z = outs client 0 (batched cfg.batch_size (prepare_texts_to_embed cfg docs)))
    (hids : (docs.map Document.id).Nodup)
    (hok : ∀ p ∈ z, ∃ r, p.2 = Except.ok r ∧ r.data.length = p.1.length)
    (hm : ∀ r : EmbResponse α, client 0 = Except.ok r → r.model ≠ "") :
    run cfg client (.list (docs.map PyObj.doc)) = .ok (runOnDocs cfg client docs)
    ∧ (embed_batch cfg client (prepare_texts_to_embed cfg docs) cfg.batch_size).all_embeddings
        = okData z
    ∧ (embed_batch cfg client (prepare_texts_to_embed cfg docs) cfg.batch_size).all_embeddings.length
        = docs.length
    ∧ (runOnDocs cfg client docs).documents
        = List.zipWith (fun d e => { d with embedding := some e }) docs
            (embed_batch cfg client (prepare_texts_to_embed cfg docs) cfg.batch_size).all_embeddings
    ∧ (runOnDocs cfg client docs).documents.length = docs.length
    ∧ ((runOnDocs cfg client docs).requests.map EmbedRequest.input).flatten
        = docs.map (textToEmbed cfg)
    ∧ (runOnDocs cfg client docs).meta.usage = ⟨promptSum z, totalSum z⟩ := by
  subst hz
  have hst := embed_batch_eq cfg client (prepare_texts_to_embed cfg docs) cfg.batch_size
  have hTlen : (prepare_texts_to_embed cfg docs).length = docs.length := by
    rw [prepare_texts_of_nodup cfg docs hids, List.length_map]
  have hembLen : (okData (outs client 0
      (batched cfg.batch_size (prepare_texts_to_embed cfg docs)))).length = docs.length := by
    rw [okData_length_of_conform _ hok, outs_map_fst, batched_flatten]
    exact hTlen
  refine ⟨run_on_doc_list cfg client docs, by rw [hst], ?_, ?_, ?_, ?_, ?_⟩
  · rw [hst]
    exact hembLen
  · simp only [runOnDocs, hst]
    exact assignEmbeddings_eq_zipWith docs _ hembLen
  · simp only [runOnDocs, hst]
    rw [assignEmbeddings_length]
  · simp only [runOnDocs, hst]
    simp only [List.map_map]
    have hco : (EmbedRequest.input ∘ reqOf cfg) = fun b : List (String × String) =>
        b.map Prod.snd := rfl
    rw [hco, ← List.map_flatten, batched_flatten, prepare_texts_of_nodup cfg docs hids,
      List.map_map]
    rfl
  · simp only [runOnDocs, hst]
    apply metaFold_usage_from_empty _ (fun p hp => (hok p hp).imp fun r hr => hr.1)
    intro b r hhead
    apply hm r
    cases hB : batched cfg.batch_size (prepare_texts_to_embed cfg docs) with
    | nil =>
      rw [hB] at hhead
      simp [outs] at hhead
    | cons b0 bs =>
      rw [hB] at hhead
      simp only [outs, List.head?_cons, Option.some.injEq, Prod.mk.injEq] at hhead
      exact hhead.2

/-- C2 witness: the amended statement with distinct ids `a`, `b`, batch size
1 and a conforming always-successful client. -/
theorem C2_all_success_amended_witness :
    run exCfg okClient (.list [PyObj.doc docA, PyObj.doc docB])
      = .ok (runOnDocs exCfg okClient [docA, docB])
    ∧ (embed_batch exCfg okClient (prepare_texts_to_embed exCfg [docA, docB])
        exCfg.batch_size).all_embeddings.length = 2
    ∧ (runOnDocs exCfg okClient [docA, docB]).meta.usage
        = ⟨promptSum (outs okClient 0
              (batched exCfg.batch_size (prepare_texts_to_embed exCfg [docA, docB]))),
           totalSum (outs okClient 0
              (batched exCfg.batch_size (prepare_texts_to_embed exCfg [docA, docB])))⟩ := by
  have hzc : outs okClient 0 (batched exCfg.batch_size (prepare_texts_to_embed exCfg [docA, docB]))
      = [([("a", "x")], Except.ok ⟨[7], "m", ⟨1, 2⟩⟩),
         ([("b", "y")], Except.ok ⟨[7], "m", ⟨1, 2⟩⟩)] := by decide
  have hok : ∀ p ∈ outs okClient 0
      (batched exCfg.batch_size (prepare_texts_to_embed exCfg [docA, docB])),
      ∃ r, p.2 = Except.ok r ∧ r.data.length = p.1.length := by
    rw [hzc]
    intro p hp
    rcases List.mem_cons.mp hp with rfl | hp
    · exact ⟨⟨[7], "m", ⟨1, 2⟩⟩, rfl, by decide⟩
    · rcases List.mem_cons.mp hp with rfl | hp
      · exact ⟨⟨[7], "m", ⟨1, 2⟩⟩, rfl, by decide⟩
      · simp at hp
  have hm : ∀ r : EmbResponse Nat, okClient 0 = Except.ok r → r.model ≠ "" := by
    intro r hr
    have hr' : Except.ok (⟨[7], "m", ⟨1, 2⟩⟩ : EmbResponse Nat) = Except.ok r := hr
    injection hr' with h1
    rw [← h1]
    decide
  have h := C2_all_success_amended exCfg okClient [docA, docB] _ rfl (by decide) hok hm
  exact ⟨h.1, h.2.2.1, h.2.2.2.2.2.2⟩

theorem configOf_paramsOfDict (q : Config) (env2 : Env) (e : String) :
    configOf (paramsOfDict (to_dict q)) env2 e = { q with azure_endpoint := e } := by
  simp only [configOf, paramsOfDict, to_dict, Option.map_map, Option.getD_some]
  have hsk : ∀ o : Option Secret, o.map (secretOfRef ∘ Secret.to_dict) = o := by
    intro o; cases o <;> rfl
  rw [hsk, hsk]

/-- C8: a configuration accepted by `__init__` serializes with `to_dict` to a
flat record — credentials appearing only as their secret references, the
token provider as its callable name — and `from_dict` of that record (under
any environment) reconstructs a component with the identical configuration. -/
theorem C8_serialization_roundtrip (p : InitParams) (env env2 : Env) (cfg : Config)
    (h : init p env = ([InitEvent.createClient], Except.ok cfg)) :
    from_dict (to_dict cfg) env2 = ([InitEvent.createClient], Except.ok cfg)
    ∧ (to_dict cfg).api_key = cfg.api_key.map Secret.to_dict
    ∧ (to_dict cfg).azure_ad_token = cfg.azure_ad_token.map Secret.to_dict
    ∧ (to_dict cfg).azure_ad_token_provider = cfg.azure_ad_token_provider := by
  refine ⟨?_, rfl, rfl, rfl⟩
  simp only [init] at h
  by_cases hend : strTruthy (pyOrStr p.azure_endpoint env.azure_openai_endpoint) = false
  · rw [if_pos hend] at h
    simp at h
  · rw [if_neg hend] at h
    by_cases hcred : (p.api_key.isNone && p.azure_ad_token.isNone) = true
    · rw [if_pos hcred] at h
      simp at h
    · rw [if_neg hcred] at h
      have hcfg : configOf p env
          ((pyOrStr p.azure_endpoint env.azure_openai_endpoint).getD "") = cfg := by
        simpa using h
      have hcfgEnd : cfg.azure_endpoint
          = (pyOrStr p.azure_endpoint env.azure_openai_endpoint).getD "" := by
        rw [← hcfg]
        rfl
      have hne : cfg.azure_endpoint ≠ "" := by
        rw [hcfgEnd]
        cases hpe : pyOrStr p.azure_endpoint env.azure_openai_endpoint with
        | none =>
          rw [hpe] at hend
          exact absurd rfl hend
        | some s =>
          rw [hpe] at hend
          simp only [Option.getD_some]
          intro hs
          apply hend
          rw [hs]
          decide
      have hkey : cfg.api_key = p.api_key := by
        rw [← hcfg]
        rfl
      have htok : cfg.azure_ad_token = p.azure_ad_token := by
        rw [← hcfg]
        rfl
      have hcred' : ¬(cfg.api_key = none ∧ cfg.azure_ad_token = none) := by
        rw [hkey, htok]
        intro hc
        apply hcred
        simp [hc.1, hc.2]
      rw [from_dict]
      simp only [init]
      have hpe2 : pyOrStr (paramsOfDict (to_dict cfg)).azure_endpoint env2.azure_openai_endpoint
          = some cfg.azure_endpoint := by
        show pyOrStr (some cfg.azure_endpoint) env2.azure_openai_endpoint
          = some cfg.azure_endpoint
        rw [pyOrStr, if_pos]
        show strTruthy (some cfg.azure_endpoint) = true
        show (if cfg.azure_endpoint = "" then false else true) = true
        rw [if_neg hne]
      rw [hpe2]
      have hT : ¬(strTruthy (some cfg.azure_endpoint) = false) := by
        show ¬((if cfg.azure_endpoint = "" then false else true) = false)
        rw [if_neg hne]
        simp
      rw [if_neg hT]
      have hmapk : (paramsOfDict (to_dict cfg)).api_key = cfg.api_key := by
        show (cfg.api_key.map Secret.to_dict).map secretOfRef = cfg.api_key
        cases cfg.api_key <;> rfl
      have hmapt : (paramsOfDict (to_dict cfg)).azure_ad_token = cfg.azure_ad_token := by
        show (cfg.azure_ad_token.map Secret.to_dict).map secretOfRef = cfg.azure_ad_token
        cases cfg.azure_ad_token <;> rfl
      have hcredB : ¬(((paramsOfDict (to_dict cfg)).api_key.isNone
          && (paramsOfDict (to_dict cfg)).azure_ad_token.isNone) = true) := by
        rw [hmapk, hmapt]
        simp only [Bool.and_eq_true, Option.isNone_iff_eq_none]
        exact hcred'
      rw [if_neg hcredB]
      rw [show (some cfg.azure_endpoint).getD "" = cfg.azure_endpoint from rfl]
      rw [configOf_paramsOfDict]

/-- C8 witness: the round trip at a concrete valid construction. -/
theorem C8_serialization_roundtrip_witness :
    init pBase envNone = ([InitEvent.createClient], Except.ok exCfgB)
    ∧ from_dict (to_dict exCfgB) envNone = ([InitEvent.createClient], Except.ok exCfgB) := by
  refine ⟨by decide, ?_⟩
  exact (C8_serialization_roundtrip pBase envNone envNone exCfgB (by decide)).1

/-- C10: the prepared-texts mapping is keyed by document id, so a later
duplicate overwrites an earlier document's text and strictly fewer texts than
documents are embedded; concretely, with two documents sharing id `"a"`, only
the later document's text is sent, the first document receives the vector
computed from the later one's text, and the trailing document keeps no
embedding; with pairwise-distinct ids the mapping is exactly one entry per
document in order, which is the precondition under which the spec's
same-length position-aligned guarantees hold. -/
theorem C10_duplicate_ids :
    (∀ (cfg : Config) (docs : List (Document α)), ¬(docs.map Document.id).Nodup →
        (prepare_texts_to_embed cfg docs).length < docs.length)
    ∧ (∀ (cfg : Config) (docs : List (Document α)), (docs.map Document.id).Nodup →
        prepare_texts_to_embed cfg docs = docs.map fun d => (d.id, textToEmbed cfg d))
    ∧ prepare_texts_to_embed exCfgB [docA, docA2] = [("a", "y")]
    ∧ (runOnDocs exCfgB okClient [docA, docA2]).requests = [⟨"m", ["y"], none⟩]
    ∧ (runOnDocs exCfgB okClient [docA, docA2]).documents
        = [⟨"a", some "x", [], some 7⟩, docA2] := by
  exact ⟨fun cfg docs h => prepare_texts_lt_of_dup cfg docs h,
    fun cfg docs h => prepare_texts_of_nodup cfg docs h,
    by decide, by decide, by decide⟩

/-- C10 witness: duplicate ids give strictly fewer texts; distinct ids give
one entry per document. -/
theorem C10_duplicate_ids_witness :
    (prepare_texts_to_embed exCfgB [docA, docA2]).length < 2
    ∧ prepare_texts_to_embed exCfg [docA, docB]
        = [docA, docB].map (fun d => (d.id, textToEmbed exCfg d)) := by
  have h := C10_duplicate_ids (α := Nat)
  exact ⟨h.1 exCfgB [docA, docA2] (by decide), h.2.1 exCfg [docA, docB] (by decide)⟩

end Haystack
